import Mathlib

/-!
Shallow embedding of the git-history extraction/analytics core
(`src/git-service.ts`) and verification of its specification claims.

The TypeScript code shells out to git and parses the textual output with
JavaScript string primitives.  The embedding models:

* the JavaScript string primitives used by the parsers (`trim`, `split`,
  `startsWith`, `substring`, `parseInt`, the few fixed regexes, `Math.round`,
  stable `Array.prototype.sort`) as structurally recursive Lean functions so
  that every model evaluates inside the kernel;
* each git subprocess result as an explicit input (the raw output string), and
  each per-file subprocess fan-out as an oracle `String → Except Unit ·`,
  where `Except.error ()` models a rejected promise / thrown error;
* `Promise.all` over per-item async closures as `exceptMapM`, which yields the
  first rejection, exactly the observable behaviour of an awaited
  `Promise.all`;
* JavaScript's stable `Array.prototype.sort` as `List.insertionSort`, which is
  stable and therefore produces the ECMAScript-mandated result for the
  consistent comparators used here;
* `NaN` produced by a failed `parseInt` as `Option.none`;
* timestamps (`Date.getTime()` values) as integers in milliseconds, with the
  string-to-time conversion `new Date(s).getTime()` passed in as an abstract
  valuation `dateMs : String → Int`.
-/

/-! ## JavaScript string primitives -/

/-- Whitespace for the purposes of `String.prototype.trim` and the regex
class `\s` (ASCII part, which is all the parsed git output contains). -/
def jsWhitespace (c : Char) : Bool :=
  c = ' ' || c = '\t' || c = '\n' || c = '\r' || c = '\x0b' || c = '\x0c'

/-- `String.prototype.trim` on a character list. -/
def jsTrimChars (s : List Char) : List Char :=
  ((s.dropWhile jsWhitespace).reverse.dropWhile jsWhitespace).reverse

/-- `String.prototype.trim`. -/
def jsTrim (s : String) : String := (jsTrimChars s.data).asString

/-- `String.prototype.split(sep)` for a one-character separator, on character
lists: `"a:b" ↦ ["a","b"]`, `"::" ↦ ["","",""]`, `"" ↦ [""]`. -/
def splitOnCharAux (sep : Char) : List Char → List (List Char)
  | [] => [[]]
  | c :: rest =>
    let r := splitOnCharAux sep rest
    if c = sep then [] :: r
    else
      match r with
      | h :: t => (c :: h) :: t
      | [] => [[c]]

/-- `String.prototype.split(sep)` for a one-character separator. -/
def jsSplitChar (s : String) (sep : Char) : List String :=
  (splitOnCharAux sep s.data).map List.asString

/-- `String.prototype.split(/\s+/)`: pieces between maximal whitespace runs,
with an empty piece at an end that begins or ends with whitespace. -/
def splitWsChars : List Char → List (List Char)
  | [] => [[]]
  | c :: rest =>
    if jsWhitespace c then
      match rest with
      | [] => [[], []]
      | d :: _ =>
        if jsWhitespace d then splitWsChars rest
        else [] :: splitWsChars rest
    else
      match splitWsChars rest with
      | h :: t => (c :: h) :: t
      | [] => [[c]]

/-- `Array.prototype.join(":")` on character lists. -/
def joinSepChars (sep : Char) : List (List Char) → List Char
  | [] => []
  | [x] => x
  | x :: y :: t => x ++ sep :: joinSepChars sep (y :: t)

/-- `String.prototype.startsWith`. -/
def jsStartsWith (s p : String) : Bool := p.data.isPrefixOf s.data

/-- `String.prototype.substring(n)`. -/
def jsDrop (s : String) (n : Nat) : String := (s.data.drop n).asString

/-- `String.prototype.includes(c)` for a one-character argument. -/
def jsIncludesChar (s : String) (c : Char) : Bool := s.data.contains c

/-- `parseInt(s, 10)` on a character list: leading whitespace, an optional
sign, then a maximal digit run; `none` models `NaN` (no digit found). -/
def parseIntJSChars (s : List Char) : Option Int :=
  let s1 := s.dropWhile jsWhitespace
  let signAndRest : Int × List Char :=
    match s1 with
    | '-' :: t => (-1, t)
    | '+' :: t => (1, t)
    | _ => (1, s1)
  let ds := signAndRest.2.takeWhile Char.isDigit
  if ds.isEmpty then none
  else some (signAndRest.1 * (ds.foldl (fun a c => 10 * a + (c.toNat - 48)) 0 : Nat))

/-- `parseInt(s, 10)`; `none` models `NaN`. -/
def parseIntJS (s : String) : Option Int := parseIntJSChars s.data

/-- Test of the regex `/^\d+\s+\d+\s+/` used to recognise numstat lines. -/
def statLineMatch (s : List Char) : Bool :=
  let r1 := s.dropWhile Char.isDigit
  let r2 := r1.dropWhile jsWhitespace
  let r3 := r2.dropWhile Char.isDigit
  !(s.takeWhile Char.isDigit).isEmpty &&
  !(r1.takeWhile jsWhitespace).isEmpty &&
  !(r2.takeWhile Char.isDigit).isEmpty &&
  (match r3 with | c :: _ => jsWhitespace c | [] => false)

/-- ASCII `String.prototype.toLowerCase` on one character. -/
def jsToLowerChar (c : Char) : Char :=
  if 'A' ≤ c && c ≤ 'Z' then Char.ofNat (c.toNat + 32) else c

/-- ASCII `String.prototype.toLowerCase`. -/
def jsToLower (s : String) : String := (s.data.map jsToLowerChar).asString

/-- Helper for the regex `/(.*) <(.*)>/`: splits at the last position where
a space is followed by `<` with some `>` occurring later, returning the text
before the space and the text after the `<`.  The last such position is the
one the greedy first group selects. -/
def splitLastAuthorTag : List Char → Option (List Char × List Char)
  | [] => none
  | c :: rest =>
    match splitLastAuthorTag rest with
    | some (b, a) => some (c :: b, a)
    | none =>
      match c, rest with
      | ' ', '<' :: t => if t.contains '>' then some ([], t) else none
      | _, _ => none

/-- Characters strictly before the last `>` of the list (the greedy second
group of `/(.*) <(.*)>/` extends to the last `>`). -/
def beforeLastGt (s : List Char) : List Char :=
  ((s.reverse.dropWhile (fun c => !(c = '>'))).drop 1).reverse

/-- `line.match(/(.*) <(.*)>/)`: on success returns the two captured groups
(author name, email). -/
def jsAuthorMatch (s : List Char) : Option (List Char × List Char) :=
  match splitLastAuthorTag s with
  | none => none
  | some (b, t) => some (b, beforeLastGt t)

/-- `Math.round (num / den)` for a nonnegative rational, i.e. rounding half
up: `⌊num/den + 1/2⌋ = ⌊(2·num + den) / (2·den)⌋`. -/
def jsRound (num den : Nat) : Nat := (2 * num + den) / (2 * den)

/-- Checks that the first `n` characters exist and are lowercase hex digits;
with `n = 40` this is the regex `/^[0-9a-f]{40}/` of the blame parser. -/
def hexRun : Nat → List Char → Bool
  | 0, _ => true
  | _ + 1, [] => false
  | n + 1, c :: cs =>
    (('0' ≤ c && c ≤ '9') || ('a' ≤ c && c ≤ 'f')) && hexRun n cs

/-- `Promise.all` over per-item async closures in the `Except` model: the
collected results on success, the first rejection otherwise. -/
def exceptMapM {α β : Type} (f : α → Except Unit β) : List α → Except Unit (List β)
  | [] => .ok []
  | x :: xs =>
    match f x with
    | .error e => .error e
    | .ok y =>
      match exceptMapM f xs with
      | .error e => .error e
      | .ok ys => .ok (y :: ys)

/-- Insertion-ordered association list: `Map.prototype.get`. -/
def alGet {β : Type} (k : String) : List (String × β) → Option β
  | [] => none
  | (k', v') :: rest => if k' = k then some v' else alGet k rest

/-- Insertion-ordered association list: `Map.prototype.set` (updates in
place, appends new keys, preserving iteration order). -/
def alSet {β : Type} (k : String) (v : β) : List (String × β) → List (String × β)
  | [] => [(k, v)]
  | (k', v') :: rest => if k' = k then (k, v) :: rest else (k', v') :: alSet k v rest

/-! ## Data model (`types.ts` and the service's inline record types) -/

/-- `GitCommit` from `types.ts`. -/
structure GitCommit where
  hash : String
  date : String
  message : String
  author : String
  email : String
deriving Repr, DecidableEq

/-- `GitFileHistory` from `types.ts`. -/
structure GitFileHistory where
  file : String
  commits : List GitCommit
  totalCommits : Nat
deriving Repr, DecidableEq

/-- Output record type of `getFileBlame`. -/
structure BlameLine where
  hash : String
  line : String
  author : String
  date : String
  lineNumber : Nat
deriving Repr, DecidableEq

/-- Output record type of `searchRepo`; `line = none` models the `NaN`
produced by `parseInt` on an unparsable line-number field. -/
structure GrepMatch where
  file : String
  line : Option Int
  content : String
deriving Repr, DecidableEq

/-- Output record type of `getCodeOwnership`. -/
structure OwnershipEntry where
  author : String
  email : String
  linesChanged : Nat
  percentage : Nat
deriving Repr, DecidableEq

/-- Output record type of `getFileContributors`; `email = none` models the
`undefined` stored when the header line has fewer than four tokens. -/
structure ContributorEntry where
  author : String
  email : Option String
  commits : Nat
  additions : Nat
  deletions : Nat
deriving Repr, DecidableEq

/-- Output record type of `getFileLifecycle`; a hotspot is (hash, date,
message). -/
structure FileLifecycle where
  creationDate : String
  changeFrequency : String
  hotspots : List (String × String × String)
deriving Repr, DecidableEq

/-- Output record type of `getRelatedFiles`. -/
structure RelatedFile where
  file : String
  coChangeCount : Nat
  lastModifiedTogether : String
deriving Repr, DecidableEq

/-- Entry of `branchSummary.branches` as consumed by `getBranches`. -/
structure BranchInfo where
  name : String
  current : Bool
deriving Repr, DecidableEq

/-- Output record type of `getBranches` (one branch entry). -/
structure BranchEntry where
  name : String
  current : Bool
  lastCommit : Option GitCommit
deriving Repr, DecidableEq

/-! ## getFileHistory -/

/-- `getFileHistory`: `git log --max-count=limit` over a file returns the
first `limit` entries of the file's full newest-first log, which is the
explicit input here.  The TypeScript default for `limit` is 10. -/
def getFileHistory (filePath : String) (fullLog : List GitCommit) (limit : Nat) :
    GitFileHistory :=
  let commits := fullLog.take limit
  { file := filePath, commits := commits, totalCommits := commits.length }

/-! ## getFileBlame -/

/-- Loop body of `getFileBlame` over the lines of
`git blame --line-porcelain` output.  State: current hash, author, date and
the header counter used as `lineNumber`.  A line whose first 40 characters
are lowercase hex is a header; `author ` and `author-time ` lines update the
attribution; a tab-initial line emits a record.  `epochIso` models
`t ↦ new Date(t).toISOString()`; an unparsable `author-time` integer makes
`toISOString` throw a `RangeError` (`new Date(NaN)`), modelled as
`Except.error`. -/
def blameGo (epochIso : Int → String) :
    List String → String → String → String → Nat → Except Unit (List BlameLine)
  | [], _, _, _, _ => .ok []
  | l :: ls, currentHash, currentAuthor, currentDate, lineCounter =>
    if hexRun 40 l.data then
      blameGo epochIso ls ((l.data.takeWhile (fun c => !(c = ' '))).asString)
        currentAuthor currentDate (lineCounter + 1)
    else if jsStartsWith l "author " then
      blameGo epochIso ls currentHash (jsDrop l 7) currentDate lineCounter
    else if jsStartsWith l "author-time " then
      match parseIntJS (jsDrop l 12) with
      | none => .error ()
      | some t => blameGo epochIso ls currentHash currentAuthor (epochIso (t * 1000)) lineCounter
    else if jsStartsWith l "\t" then
      (blameGo epochIso ls currentHash currentAuthor currentDate lineCounter).map
        (fun r =>
          { hash := currentHash, author := currentAuthor, date := currentDate,
            line := jsDrop l 1, lineNumber := lineCounter } :: r)
    else
      blameGo epochIso ls currentHash currentAuthor currentDate lineCounter

/-- `getFileBlame` on the raw `git blame --line-porcelain` output. -/
def getFileBlame (epochIso : Int → String) (blameOut : String) :
    Except Unit (List BlameLine) :=
  blameGo epochIso (jsSplitChar blameOut '\n') "" "" "" 0

/-- A content-marker (tab-initial) line of the blame stream. -/
def isContentLine (l : String) : Bool := jsStartsWith l "\t"

/-- Well-formedness of a blame stream for contiguous numbering: every content
line is preceded by exactly one fresh header line.  The flag records whether a
header has been consumed and not yet used by a content line. -/
def blameWF : Bool → List String → Bool
  | _, [] => true
  | pending, l :: ls =>
    if hexRun 40 l.data then !pending && blameWF true ls
    else if isContentLine l then pending && blameWF false ls
    else blameWF pending ls

/-! ## searchRepo -/

/-- Body of the `searchRepo` map: split the grep line on `:`, take the first
field as file, parse the second as the line number (`none` models `NaN`),
re-join and trim the rest as content. -/
def parseGrepLine (l : String) : GrepMatch :=
  let parts := jsSplitChar l ':'
  { file := (parts.head?).getD ""
    line := parts[1]?.bind parseIntJS
    content := jsTrim ((joinSepChars ':' ((parts.drop 2).map String.data)).asString) }

/-- `searchRepo` applied to the lines of the `git grep -n` output: nonempty
lines (after trim) are each parsed independently. -/
def searchRepoLines (lines : List String) : List GrepMatch :=
  (lines.filter (fun l => !(jsTrim l).data.isEmpty)).map parseGrepLine

/-- `searchRepo` on the raw `git grep -n` output. -/
def searchRepo (result : String) : List GrepMatch :=
  searchRepoLines (jsSplitChar result '\n')

/-! ## getCodeOwnership -/

/-- Descending order on accumulated line counts used by the stable sort in
`getCodeOwnership` (`(a, b) => b.linesChanged - a.linesChanged`). -/
def ownDesc (a b : OwnershipEntry) : Prop := b.linesChanged ≤ a.linesChanged

instance : DecidableRel ownDesc := fun _ _ => Nat.decLe _ _

instance : IsTotal OwnershipEntry ownDesc :=
  ⟨fun a b => le_total b.linesChanged a.linesChanged⟩

instance : IsTrans OwnershipEntry ownDesc :=
  ⟨fun _ _ _ h1 h2 => le_trans h2 h1⟩

/-- Loop of `getCodeOwnership` over the lines of
`git log --pretty=format:"%an <%ae>" --numstat` output.  An author line
(contains `<` and `>` and matches `/(.*) <(.*)>/`) switches the current
author and inserts it with count 0 if new; a stat line
(`/^\d+\s+\d+\s+/`) adds its added+deleted counts to the current author if
that author is present in the map. -/
def ownershipLoop :
    List String → String → List (String × String × Nat) → List (String × String × Nat)
  | [], _, m => m
  | l :: ls, currentAuthor, m =>
    let line := jsTrim l
    if line = "" then ownershipLoop ls currentAuthor m
    else if jsIncludesChar line '<' && jsIncludesChar line '>' then
      match jsAuthorMatch line.data with
      | some (a, e) =>
        let author := a.asString
        let m' := if (alGet author m).isSome then m else alSet author (e.asString, 0) m
        ownershipLoop ls author m'
      | none => ownershipLoop ls currentAuthor m
    else if statLineMatch line.data then
      let parts := (splitWsChars line.data).map List.asString
      match parseIntJS (parts.getD 0 ""), parseIntJS (parts.getD 1 "") with
      | some added, some deleted =>
        match alGet currentAuthor m with
        | some (em, lc) =>
          ownershipLoop ls currentAuthor
            (alSet currentAuthor (em, lc + (added + deleted).toNat) m)
        | none => ownershipLoop ls currentAuthor m
      | _, _ => ownershipLoop ls currentAuthor m
    else ownershipLoop ls currentAuthor m

/-- The per-author accumulation of `getCodeOwnership` on the raw log
output. -/
def ownershipMapOf (s : String) : List (String × String × Nat) :=
  ownershipLoop (jsSplitChar s '\n') "" []

/-- `totalLines` of `getCodeOwnership`: sum of all accumulated counts. -/
def ownershipTotal (s : String) : Nat :=
  ((ownershipMapOf s).map (fun e => e.2.2)).sum

/-- `getCodeOwnership` on the raw log output: percentage is 0 when the total
is 0, otherwise `Math.round(linesChanged / totalLines * 100)` (modelled in
exact arithmetic); sorted descending by `linesChanged`. -/
def getCodeOwnership (s : String) : List OwnershipEntry :=
  let total := ownershipTotal s
  List.insertionSort ownDesc
    ((ownershipMapOf s).map (fun e =>
      { author := e.1, email := e.2.1, linesChanged := e.2.2,
        percentage := if total = 0 then 0 else jsRound (e.2.2 * 100) total }))

/-! ## getFileContributors -/

/-- Descending order on commit counts used by the stable sort in
`getFileContributors` (`(a, b) => b.commits - a.commits`). -/
def contribDesc (a b : ContributorEntry) : Prop := b.commits ≤ a.commits

instance : DecidableRel contribDesc := fun _ _ => Nat.decLe _ _

/-- Loop of `getFileContributors` over the lines of
`git log --numstat --format="%H %an %ae %at"` output.  A header line starts
with a literal `"` (the quotes of the format string appear in the output)
and contains a space; its space-separated tokens 1 and 2 are joined as the
author name and token 3 (if present) is the email.  Stat lines add to the
current author. -/
def contributorsLoop :
    List String → String →
    List (String × Option String × Nat × Nat × Nat) →
    List (String × Option String × Nat × Nat × Nat)
  | [], _, m => m
  | l :: ls, currentAuthor, m =>
    let line := jsTrim l
    if line = "" then contributorsLoop ls currentAuthor m
    else if jsStartsWith line "\"" && jsIncludesChar line ' ' then
      let parts := jsSplitChar (jsDrop line 1) ' '
      if parts.length ≥ 3 then
        let author := parts.getD 1 "" ++ " " ++ parts.getD 2 ""
        let m' := if (alGet author m).isSome then m else alSet author (parts[3]?, 0, 0, 0) m
        match alGet author m' with
        | some (em, cm, ad, de) =>
          contributorsLoop ls author (alSet author (em, cm + 1, ad, de) m')
        | none => contributorsLoop ls author m'
      else contributorsLoop ls currentAuthor m
    else if statLineMatch line.data then
      let parts := (splitWsChars line.data).map List.asString
      match parseIntJS (parts.getD 0 ""), parseIntJS (parts.getD 1 "") with
      | some adds, some dels =>
        match alGet currentAuthor m with
        | some (em, cm, ad, de) =>
          contributorsLoop ls currentAuthor
            (alSet currentAuthor (em, cm, ad + adds.toNat, de + dels.toNat) m)
        | none => contributorsLoop ls currentAuthor m
      | _, _ => contributorsLoop ls currentAuthor m
    else contributorsLoop ls currentAuthor m

/-- `getFileContributors` on the raw log output, sorted descending by commit
count. -/
def getFileContributors (s : String) : List ContributorEntry :=
  List.insertionSort contribDesc
    ((contributorsLoop (jsSplitChar s '\n') "" []).map (fun e =>
      { author := e.1, email := e.2.1, commits := e.2.2.1,
        additions := e.2.2.2.1, deletions := e.2.2.2.2 }))

/-! ## getFileLifecycle -/

/-- Milliseconds per day (`1000 * 60 * 60 * 24`). -/
def msPerDay : Int := 1000 * 60 * 60 * 24

/-- The code's window test `daysDiff <= d` where
`daysDiff = (now - t) / 86_400_000` in real division, equivalently
`now - t ≤ d · 86_400_000`. -/
def withinDays (now t d : Int) : Bool := decide (now - t ≤ d * msPerDay)

/-- The `importantPrefixes` list of `getFileLifecycle`. -/
def importantStarts : List String :=
  ["add", "fix", "feature", "refactor", "rewrite", "implement"]

/-- The frequency-description chain of `getFileLifecycle`, evaluated in
order on the three window counts. -/
def lifecycleFrequency (commits30 commits90 commitsYear : Nat) : String :=
  if commits30 > 10 then "very active (10+ changes in last month)"
  else if commits30 > 5 then "active (5+ changes in last month)"
  else if commits90 > 10 then "moderately active (10+ changes in last quarter)"
  else if commitsYear > 10 then "occasionally modified (10+ changes in last year)"
  else if commitsYear > 0 then "rarely modified (less than 10 changes in last year)"
  else "inactive"

/-- `getFileLifecycle`: the code calls `getFileHistory(filePath)` with the
default `limit = 10`, so `history` is the newest 10 commits of the file's
full log `fullLog`.  `dateMs` models `s ↦ new Date(s).getTime()` and `now`
models `new Date().getTime()`. -/
def getFileLifecycle (dateMs : String → Int) (now : Int) (fullLog : List GitCommit) :
    FileLifecycle :=
  let history := getFileHistory "" fullLog 10
  let oldestCommit := history.commits.getLast?
  let commits30 := (history.commits.filter (fun c => withinDays now (dateMs c.date) 30)).length
  let commits90 := (history.commits.filter (fun c => withinDays now (dateMs c.date) 90)).length
  let commitsYear := (history.commits.filter (fun c => withinDays now (dateMs c.date) 365)).length
  let significantCommits :=
    ((history.commits.filter (fun c =>
        importantStarts.any (fun p => jsStartsWith (jsToLower c.message) p))).take 5).map
      (fun c => (c.hash, c.date, c.message))
  { creationDate := match oldestCommit with | some c => c.date | none => ""
    changeFrequency := lifecycleFrequency commits30 commits90 commitsYear
    hotspots := significantCommits }

/-! ## getRelatedFiles -/

/-- Descending order on co-change counts used by the stable sort in
`getRelatedFiles` (`(a, b) => b.coChangeCount - a.coChangeCount`). -/
def relDesc (a b : RelatedFile) : Prop := b.coChangeCount ≤ a.coChangeCount

instance : DecidableRel relDesc := fun _ _ => Nat.decLe _ _

instance : IsTotal RelatedFile relDesc :=
  ⟨fun a b => le_total b.coChangeCount a.coChangeCount⟩

instance : IsTrans RelatedFile relDesc :=
  ⟨fun _ _ _ h1 h2 => le_trans h2 h1⟩

/-- `fileCommits.filter(hash => otherFileCommits.has(hash))`: the target
file's commit hashes that also occur in the other file's history. -/
def sharedCommits (target other : List String) : List String :=
  target.filter (fun h => other.contains h)

/-- The candidate list of `getRelatedFiles`: the `git ls-files` output split
on newlines, with blank lines and the target path removed, truncated by
`slice(0, Math.min(100, fileList.length))`. -/
def relatedCandidates (filesRaw : String) (filePath : String) : List String :=
  let fileList := (jsSplitChar filesRaw '\n').filter
    (fun f => !(jsTrim f).data.isEmpty && !(f = filePath))
  fileList.take (min 100 fileList.length)

/-- The per-candidate body of `getRelatedFiles`: `none` when the commit
intersection is empty, otherwise the co-change record whose
`lastModifiedTogether` is the date of the first entry of the target's own
newest-first history whose hash lies in the intersection. -/
def relatedEntry (targetCommits : List GitCommit) (fileCommits : List String)
    (file : String) (otherHist : List GitCommit) : Option RelatedFile :=
  let otherFileCommits := otherHist.map (fun c => c.hash)
  let commonCommits := sharedCommits fileCommits otherFileCommits
  if commonCommits.isEmpty then none
  else
    let lastCommonCommit := targetCommits.find? (fun c => commonCommits.contains c.hash)
    some { file := file, coChangeCount := commonCommits.length,
           lastModifiedTogether := (lastCommonCommit.map (fun c => c.date)).getD "" }

/-- The per-candidate async closure of `getRelatedFiles`: query the
candidate's history and build its optional co-change record; a thrown
history query rejects this item's promise. -/
def relatedQuery (histOf : String → Except Unit (List GitCommit))
    (targetCommits : List GitCommit) (fileCommits : List String)
    (file : String) : Except Unit (Option RelatedFile) :=
  match histOf file with
  | .error e => .error e
  | .ok otherHist => .ok (relatedEntry targetCommits fileCommits file otherHist)

/-- `getRelatedFiles`.  `histOf` is the per-file history oracle (the commits
returned by `getFileHistory` for a path, or a rejection); `filesRaw` is the
raw `git ls-files` output.  The candidate queries run under `Promise.all`,
so a single rejection rejects the whole call (`exceptMapM`).  Survivors are
sorted descending by co-change count and truncated to `limit` (TypeScript
default 5). -/
def getRelatedFiles (histOf : String → Except Unit (List GitCommit))
    (filePath : String) (filesRaw : String) (limit : Nat) :
    Except Unit (List RelatedFile) :=
  match histOf filePath with
  | .error e => .error e
  | .ok targetCommits =>
    let fileCommits := targetCommits.map (fun c => c.hash)
    if fileCommits.isEmpty then .ok []
    else
      match exceptMapM (relatedQuery histOf targetCommits fileCommits)
        (relatedCandidates filesRaw filePath) with
      | .error e => .error e
      | .ok results =>
        .ok ((List.insertionSort relDesc (results.filterMap id)).take limit)

/-! ## getBranches -/

/-- The comparator `(a, b) => a.current ? -1 : (b.current ? 1 : 0)` as used
by the stable sort of `getBranches`: `a` may stay before `b` unless `b` is
current and `a` is not. -/
def branchDesc (a b : BranchEntry) : Prop := a.current = true ∨ b.current = false

instance : DecidableRel branchDesc := fun _ _ => inferInstanceAs (Decidable (_ ∨ _))

/-- The per-branch body of `getBranches`: a failing last-commit lookup
(caught by the inner `try/catch`) keeps the branch entry but leaves
`lastCommit` absent; a successful lookup stores the first returned commit,
if any. -/
def branchEntryOf (lastCommitOf : String → Except Unit (List GitCommit))
    (b : BranchInfo) : BranchEntry :=
  match lastCommitOf b.name with
  | .error _ => { name := b.name, current := b.current, lastCommit := none }
  | .ok commits => { name := b.name, current := b.current, lastCommit := commits.head? }

/-- `getBranches` (the `branches` array of its result): branches whose name
contains `/` are skipped, each remaining branch is kept regardless of its
lookup's outcome, and the result is sorted current-first. -/
def getBranches (lastCommitOf : String → Except Unit (List GitCommit))
    (bs : List BranchInfo) : List BranchEntry :=
  List.insertionSort branchDesc
    ((bs.filter (fun b => !(jsIncludesChar b.name '/'))).map (branchEntryOf lastCommitOf))

/-! ## Concrete fixtures for witnesses and counterexamples -/

/-- A single commit used by the fan-out fixtures. -/
def exCommitT : GitCommit :=
  { hash := "h1", date := "2024-01-01", message := "fix a", author := "A", email := "a@x" }

/-- History oracle where the target `t` and candidate `c` share commit `h1`
and every other path's query fails. -/
def exHistFail : String → Except Unit (List GitCommit) := fun f =>
  if f = "t" then .ok [exCommitT] else if f = "c" then .ok [exCommitT] else .error ()

/-- History oracle identical to `exHistFail` except that the remaining paths
succeed with an empty history instead of failing. -/
def exHistNoFail : String → Except Unit (List GitCommit) := fun f =>
  if f = "t" then .ok [exCommitT] else if f = "c" then .ok [exCommitT] else .ok []

/-- History oracle where the target `t` has no commits and every other
query fails. -/
def exEmptyOracle : String → Except Unit (List GitCommit) := fun f =>
  if f = "t" then .ok [] else .error ()

/-- Last-commit oracle that succeeds only for branch `main`. -/
def exBranchOracle : String → Except Unit (List GitCommit) := fun n =>
  if n = "main" then .ok [exCommitT] else .error ()

/-- Date valuation that sends every date string to epoch 0. -/
def exDateMs : String → Int := fun _ => 0

/-- Newest-first full log of a file with 11 commits; under `exDateMs` and
`now = 0` every commit falls inside every trailing window. -/
def exLog11 : List GitCommit :=
  [⟨"h0", "d0", "m", "a", "e"⟩, ⟨"h1", "d1", "m", "a", "e"⟩, ⟨"h2", "d2", "m", "a", "e"⟩,
   ⟨"h3", "d3", "m", "a", "e"⟩, ⟨"h4", "d4", "m", "a", "e"⟩, ⟨"h5", "d5", "m", "a", "e"⟩,
   ⟨"h6", "d6", "m", "a", "e"⟩, ⟨"h7", "d7", "m", "a", "e"⟩, ⟨"h8", "d8", "m", "a", "e"⟩,
   ⟨"h9", "d9", "m", "a", "e"⟩, ⟨"h10", "d10", "m", "a", "e"⟩]

/-- Raw grep output with one malformed line-number field. -/
def exGrepOut : String := "a.ts:xx:foo\nb.ts:2:bar"

/-- The numstat block of the specification's contributor example, with the
header line as `git log --format="%H %an %ae %at"` actually prints it (the
quotes of the format string are literal in the output). -/
def exNumstatOut : String := "\"h1 Alice alice@x.com 100\"\n3 1 a.ts\n0 5 b.ts"

/-- Raw ownership log output with two authors and five changed lines. -/
def exOwnershipOut : String := "Alice <a@x>\n3 1 f.ts\nBob <b@x>\n1 0 g.ts"

/-- A well-formed one-line blame stream. -/
def exBlameOut : String :=
  "0123456789abcdef0123456789abcdef01234567 1 1\nauthor Al\nauthor-time 100\n\tfoo"

/-- The parse of `exBlameOut`. -/
def exBlameRes : List BlameLine :=
  [{ hash := "0123456789abcdef0123456789abcdef01234567", line := "foo",
     author := "Al", date := "T", lineNumber := 1 }]

/-! ## Helper lemmas -/

theorem exceptMapM_error_of_mem {α β : Type} {f : α → Except Unit β} {l : List α} {x : α}
    (hx : x ∈ l) (hfx : f x = .error ()) : exceptMapM f l = .error () := by
  induction l with
  | nil => cases hx
  | cons y ys ih =>
    cases hx with
    | head => simp [exceptMapM, hfx]
    | tail _ h =>
      simp only [exceptMapM]
      cases hfy : f y with
      | error e => cases e; rfl
      | ok v => rw [ih h]

theorem mem_of_exceptMapM_ok {α β : Type} {f : α → Except Unit β} {l : List α} {rs : List β}
    (h : exceptMapM f l = .ok rs) : ∀ r ∈ rs, ∃ x ∈ l, f x = .ok r := by
  induction l generalizing rs with
  | nil =>
    simp only [exceptMapM] at h
    cases h
    simp
  | cons y ys ih =>
    simp only [exceptMapM] at h
    cases hfy : f y with
    | error e => rw [hfy] at h; cases h
    | ok v =>
      rw [hfy] at h
      cases hys : exceptMapM f ys with
      | error e => rw [hys] at h; cases h
      | ok vs =>
        rw [hys] at h
        cases h
        intro r hr
        cases hr with
        | head => exact ⟨y, List.mem_cons_self y ys, hfy⟩
        | tail _ hr' =>
          obtain ⟨x, hx, hfx⟩ := ih hys r hr'
          exact ⟨x, List.mem_cons_of_mem y hx, hfx⟩
theorem content_head {l : String} (h : isContentLine l = true) :
    ∃ cs, l.data = '\t' :: cs := by
  unfold isContentLine jsStartsWith at h
  cases hd : l.data with
  | nil => rw [hd] at h; cases h
  | cons c cs =>
    rw [hd] at h
    have : ('\t' == c) = true := by
      cases hbc : ('\t' == c) with
      | true => rfl
      | false => rw [show ("\t".data = ['\t']) from rfl] at h; simp [List.isPrefixOf, hbc] at h
    exact ⟨cs, by rw [eq_of_beq this]⟩

theorem content_not_header {l : String} (h : isContentLine l = true) :
    hexRun 40 l.data = false := by
  obtain ⟨cs, hd⟩ := content_head h
  rw [hd]
  rfl

theorem content_not_author {l : String} (h : isContentLine l = true) :
    jsStartsWith l "author " = false := by
  obtain ⟨cs, hd⟩ := content_head h
  unfold jsStartsWith
  rw [hd]
  rfl

theorem content_not_authorTime {l : String} (h : isContentLine l = true) :
    jsStartsWith l "author-time " = false := by
  obtain ⟨cs, hd⟩ := content_head h
  unfold jsStartsWith
  rw [hd]
  rfl

theorem header_not_content {l : String} (h : hexRun 40 l.data = true) :
    isContentLine l = false := by
  cases hc : isContentLine l with
  | false => rfl
  | true =>
    obtain ⟨cs, hd⟩ := content_head hc
    rw [hd] at h
    cases h

theorem author_not_content {l : String} (h : jsStartsWith l "author " = true) :
    isContentLine l = false := by
  cases hc : isContentLine l with
  | false => rfl
  | true =>
    obtain ⟨cs, hd⟩ := content_head hc
    unfold jsStartsWith at h
    rw [hd] at h
    cases h

theorem authorTime_not_content {l : String} (h : jsStartsWith l "author-time " = true) :
    isContentLine l = false := by
  cases hc : isContentLine l with
  | false => rfl
  | true =>
    obtain ⟨cs, hd⟩ := content_head hc
    unfold jsStartsWith at h
    rw [hd] at h
    cases h
theorem blameGo_length (epochIso : Int → String) (ls : List String) :
    ∀ (h a d : String) (c : Nat) (res : List BlameLine),
    blameGo epochIso ls h a d c = .ok res →
    res.length = (ls.filter isContentLine).length := by
  induction ls with
  | nil =>
    intro h a d c res hres
    simp only [blameGo] at hres
    cases hres
    simp
  | cons l ls ih =>
    intro h a d c res hres
    simp only [blameGo] at hres
    by_cases hh : hexRun 40 l.data = true
    · rw [if_pos hh] at hres
      rw [List.filter_cons_of_neg (by simp [header_not_content hh])]
      exact ih _ _ _ _ _ hres
    · rw [if_neg hh] at hres
      by_cases ha : jsStartsWith l "author " = true
      · rw [if_pos ha] at hres
        rw [List.filter_cons_of_neg (by simp [author_not_content ha])]
        exact ih _ _ _ _ _ hres
      · rw [if_neg ha] at hres
        by_cases hat : jsStartsWith l "author-time " = true
        · rw [if_pos hat] at hres
          cases hpi : parseIntJS (jsDrop l 12) with
          | none => rw [hpi] at hres; cases hres
          | some t =>
            rw [hpi] at hres
            rw [List.filter_cons_of_neg (by simp [authorTime_not_content hat])]
            exact ih _ _ _ _ _ hres
        · rw [if_neg hat] at hres
          by_cases ht : jsStartsWith l "\t" = true
          · rw [if_pos ht] at hres
            have htc : isContentLine l = true := ht
            rw [List.filter_cons_of_pos (by simp [htc])]
            cases hrec : blameGo epochIso ls h a d c with
            | error e => rw [hrec] at hres; cases hres
            | ok res' =>
              rw [hrec] at hres
              cases hres
              simp only [List.length_cons]
              rw [ih _ _ _ _ _ hrec]
          · rw [if_neg ht] at hres
            have htc : isContentLine l = false := by
              cases hcc : isContentLine l with
              | false => rfl
              | true => exact absurd hcc ht
            rw [List.filter_cons_of_neg (by simp [htc])]
            exact ih _ _ _ _ _ hres
theorem blameGo_lineNumbers (epochIso : Int → String) (ls : List String) :
    ∀ (b : Bool) (h a d : String) (c : Nat) (res : List BlameLine),
    blameWF b ls = true → blameGo epochIso ls h a d c = .ok res →
    res.map (fun r => r.lineNumber) =
      List.range' (if b then c else c + 1) ((ls.filter isContentLine).length) := by
  induction ls with
  | nil =>
    intro b h a d c res hwf hres
    simp only [blameGo] at hres
    cases hres
    simp
  | cons l ls ih =>
    intro b h a d c res hwf hres
    simp only [blameGo] at hres
    simp only [blameWF] at hwf
    by_cases hh : hexRun 40 l.data = true
    · rw [if_pos hh] at hres
      rw [if_pos hh] at hwf
      obtain ⟨hb, hwf'⟩ := Bool.and_eq_true_iff.mp hwf
      have hbf : b = false := by
        cases b with
        | false => rfl
        | true => cases hb
      subst hbf
      rw [List.filter_cons_of_neg (by simp [header_not_content hh])]
      have := ih true _ _ _ _ _ hwf' hres
      simpa using this
    · rw [if_neg hh] at hres
      rw [if_neg hh] at hwf
      by_cases ha : jsStartsWith l "author " = true
      · rw [if_pos ha] at hres
        have hcl : isContentLine l = false := author_not_content ha
        rw [if_neg (by simp [hcl])] at hwf
        rw [List.filter_cons_of_neg (by simp [hcl])]
        exact ih b _ _ _ _ _ hwf hres
      · rw [if_neg ha] at hres
        by_cases hat : jsStartsWith l "author-time " = true
        · rw [if_pos hat] at hres
          have hcl : isContentLine l = false := authorTime_not_content hat
          rw [if_neg (by simp [hcl])] at hwf
          cases hpi : parseIntJS (jsDrop l 12) with
          | none => rw [hpi] at hres; cases hres
          | some t =>
            rw [hpi] at hres
            rw [List.filter_cons_of_neg (by simp [hcl])]
            exact ih b _ _ _ _ _ hwf hres
        · rw [if_neg hat] at hres
          by_cases ht : jsStartsWith l "\t" = true
          · rw [if_pos ht] at hres
            have htc : isContentLine l = true := ht
            rw [if_pos htc] at hwf
            obtain ⟨hb, hwf'⟩ := Bool.and_eq_true_iff.mp hwf
            subst hb
            rw [List.filter_cons_of_pos (by simp [htc])]
            cases hrec : blameGo epochIso ls h a d c with
            | error e => rw [hrec] at hres; cases hres
            | ok res' =>
              rw [hrec] at hres
              cases hres
              have := ih false _ _ _ _ _ hwf' hrec
              simp only [List.map_cons, this, List.length_cons]
              simp [List.range'_succ]
          · rw [if_neg ht] at hres
            have htc : isContentLine l = false := by
              cases hcc : isContentLine l with
              | false => rfl
              | true => exact absurd hcc ht
            rw [if_neg (by simp [htc])] at hwf
            rw [List.filter_cons_of_neg (by simp [htc])]
            exact ih b _ _ _ _ _ hwf hres
theorem jsRound_mul_le (num den : Nat) : jsRound num den * (2 * den) ≤ 2 * num + den :=
  Nat.div_mul_le_self _ _

theorem jsRound_succ_mul (num den : Nat) (h : 0 < den) :
    2 * num + den + 1 ≤ (jsRound num den + 1) * (2 * den) := by
  have h2 : 0 < 2 * den := by omega
  have hd := Nat.div_add_mod (2 * num + den) (2 * den)
  have hm := Nat.mod_lt (2 * num + den) h2
  unfold jsRound
  nlinarith [hd, hm]

theorem roundSum_le (t : Nat) (vals : List Nat) :
    ((vals.map (fun l => jsRound (l * 100) t)).sum) * (2 * t) ≤
      200 * vals.sum + vals.length * t := by
  induction vals with
  | nil => simp
  | cons v vs ih =>
    simp only [List.map_cons, List.sum_cons, List.length_cons]
    have hv := jsRound_mul_le (v * 100) t
    nlinarith [hv, ih]

theorem roundSum_ge (t : Nat) (h : 0 < t) (vals : List Nat) :
    200 * vals.sum + vals.length * t + vals.length ≤
      ((vals.map (fun l => jsRound (l * 100) t)).sum + vals.length) * (2 * t) := by
  induction vals with
  | nil => simp
  | cons v vs ih =>
    simp only [List.map_cons, List.sum_cons, List.length_cons]
    have hv := jsRound_succ_mul (v * 100) t h
    nlinarith [hv, ih]

theorem roundSum_bounds (vals : List Nat) (h : 0 < vals.sum) :
    100 ≤ (vals.map (fun l => jsRound (l * 100) vals.sum)).sum + vals.length ∧
    (vals.map (fun l => jsRound (l * 100) vals.sum)).sum ≤ 100 + vals.length := by
  have h1 := roundSum_le vals.sum vals
  have h2 := roundSum_ge vals.sum h vals
  have hU : (vals.map (fun l => jsRound (l * 100) vals.sum)).sum * 2 ≤ 200 + vals.length := by
    have hm : ((vals.map (fun l => jsRound (l * 100) vals.sum)).sum * 2) * vals.sum ≤
        (200 + vals.length) * vals.sum := by nlinarith [h1]
    exact Nat.le_of_mul_le_mul_right hm h
  have hL : 200 + vals.length ≤ ((vals.map (fun l => jsRound (l * 100) vals.sum)).sum + vals.length) * 2 := by
    have hm : (200 + vals.length) * vals.sum ≤
        (((vals.map (fun l => jsRound (l * 100) vals.sum)).sum + vals.length) * 2) * vals.sum := by
      nlinarith [h2]
    exact Nat.le_of_mul_le_mul_right hm h
  omega
theorem sharedCommits_length_eq_inter_card (X Y : List String) (hX : X.Nodup) :
    (sharedCommits X Y).length = (X.toFinset ∩ Y.toFinset).card := by
  classical
  unfold sharedCommits
  rw [← List.toFinset_card_of_nodup (hX.filter _)]
  congr 1
  ext x
  simp [List.mem_filter, List.elem_iff, And.comm]

/-- C8: the shared-commit count computed by getRelatedFiles, namely the length
of the target's hash list filtered by membership in the other file's hash
set, is symmetric whenever both hash lists are duplicate-free. -/
theorem c8_cochange_symmetric (A B : List String) (hA : A.Nodup) (hB : B.Nodup) :
    (sharedCommits A B).length = (sharedCommits B A).length := by
  rw [sharedCommits_length_eq_inter_card A B hA,
    sharedCommits_length_eq_inter_card B A hB, Finset.inter_comm]

/-- Witness for C8 at the concrete duplicate-free histories
`["x", "y"]` and `["y", "z"]`. -/
theorem c8_cochange_symmetric_witness :
    (["x", "y"] : List String).Nodup ∧ (["y", "z"] : List String).Nodup ∧
    (sharedCommits ["x", "y"] ["y", "z"]).length =
      (sharedCommits ["y", "z"] ["x", "y"]).length :=
  ⟨by decide, by decide, c8_cochange_symmetric _ _ (by decide) (by decide)⟩
/-- C2 (code bug): a file whose full newest-first log holds 11 commits all
dated within the last 30 days is classified "active (5+ changes in last
month)", not "very active": getFileLifecycle fetches the history through
getFileHistory with the default limit 10, so the 30-day count can never
exceed 10 and the "very active" branch is unreachable, although the
threshold chain itself maps window counts 11/11/11 to "very active". -/
theorem c2_lifecycle_code_bug :
    (exLog11.filter (fun c => withinDays 0 (exDateMs c.date) 30)).length = 11 ∧
    (getFileLifecycle exDateMs 0 exLog11).changeFrequency =
      "active (5+ changes in last month)" ∧
    lifecycleFrequency 11 11 11 = "very active (10+ changes in last month)" :=
  ⟨by decide, rfl, rfl⟩

/-- C3 (code bug): for the 11-commit log, the oldest commit touching the
file is the last entry (date "d10"), but getFileLifecycle reports
creationDate "d9" — the oldest of the 10 commits its internally truncated
history retains; for an empty history it does return the empty string. -/
theorem c3_creation_date_code_bug :
    (getFileLifecycle exDateMs 0 exLog11).creationDate = "d9" ∧
    exLog11.getLast? = some ⟨"h10", "d10", "m", "a", "e"⟩ ∧
    ("d9" : String) ≠ "d10" ∧
    (getFileLifecycle exDateMs 0 []).creationDate = "" :=
  ⟨rfl, rfl, by decide, rfl⟩

/-- C4 counterexample: searchRepo does not exclude the grep line
`a.ts:xx:foo`, whose line-number field does not parse; it keeps it with a
NaN (`none`) line number, so the parse has two matches, not one. -/
theorem c4_counterexample :
    searchRepo exGrepOut =
      [{ file := "a.ts", line := none, content := "foo" },
       { file := "b.ts", line := some 2, content := "bar" }] ∧
    (searchRepo exGrepOut).length ≠ 1 :=
  ⟨rfl, by decide⟩

/-- C4 amended: a grep line whose line-number field does not parse as an
integer is still included in the matches, with a NaN (`none`) line number;
its presence leaves every other line's parse unchanged, so the failure is
not fatal to the rest of the parse. -/
theorem c4_grep_nan_kept (pre post : List String) (l : String)
    (h1 : (jsTrim l).data.isEmpty = false)
    (h2 : (jsSplitChar l ':')[1]?.bind parseIntJS = none) :
    searchRepoLines (pre ++ l :: post) =
      searchRepoLines pre ++ parseGrepLine l :: searchRepoLines post ∧
    (parseGrepLine l).line = none := by
  constructor
  · simp [searchRepoLines, List.filter_append, List.filter_cons, h1]
  · simp [parseGrepLine, h2]

/-- Witness for C4 at the concrete lines of `exGrepOut`. -/
theorem c4_grep_nan_kept_witness :
    (jsTrim "a.ts:xx:foo").data.isEmpty = false ∧
    searchRepoLines (["b.ts:2:bar"] ++ "a.ts:xx:foo" :: []) =
      searchRepoLines ["b.ts:2:bar"] ++
        parseGrepLine "a.ts:xx:foo" :: searchRepoLines [] ∧
    (parseGrepLine "a.ts:xx:foo").line = none :=
  ⟨rfl, (c4_grep_nan_kept ["b.ts:2:bar"] [] "a.ts:xx:foo" rfl rfl).1,
    (c4_grep_nan_kept ["b.ts:2:bar"] [] "a.ts:xx:foo" rfl rfl).2⟩

/-- C9 counterexample: on the specification's numstat block (header as git
prints it for the format `"%H %an %ae %at"`), the parser attributes 3 added
and 6 deleted lines — not 4 added — and keys the entry under
"Alice alice@x.com", since it takes tokens 1 and 2 of the header as the
author name. -/
theorem c9_counterexample :
    getFileContributors exNumstatOut =
      [{ author := "Alice alice@x.com", email := some "100\"", commits := 1,
         additions := 3, deletions := 6 }] ∧
    ((getFileContributors exNumstatOut).map (fun e => e.additions)).sum ≠ 4 :=
  ⟨rfl, by decide⟩

/-- C9 amended: parsing the block consisting of the header line
`"<hdr> Alice alice@x.com 100"` followed by the stat lines `3 1 a.ts` and
`0 5 b.ts` attributes 3 added plus 6 deleted lines in total, all to the
single author entry keyed "Alice alice@x.com" (the parser assumes a
two-token author name, so the email token becomes part of the name and the
timestamp token becomes the email). -/
theorem c9_contributors_example :
    getFileContributors exNumstatOut =
      [{ author := "Alice alice@x.com", email := some "100\"", commits := 1,
         additions := 3, deletions := 6 }] := rfl

/-- C10: when the target path's own history query returns zero commits,
getRelatedFiles returns the empty list at once; the conclusion holds for
every oracle, in particular ones that fail on every candidate, so no
candidate is evaluated. -/
theorem c10_empty_history (histOf : String → Except Unit (List GitCommit))
    (filePath filesRaw : String) (limit : Nat)
    (h : histOf filePath = .ok []) :
    getRelatedFiles histOf filePath filesRaw limit = .ok [] := by
  simp [getRelatedFiles, h]

/-- Witness for C10: the oracle gives the target an empty history and fails
on every other path, yet the result is the empty list. -/
theorem c10_empty_history_witness :
    exEmptyOracle "t" = .ok [] ∧
    getRelatedFiles exEmptyOracle "t" "b\nc" 5 = .ok [] :=
  ⟨rfl, c10_empty_history exEmptyOracle "t" "b\nc" 5 rfl⟩

/-- C1 counterexample: under `exHistFail` the candidate `b`'s history query
fails while target `t` and candidate `c` share commit `h1`; getRelatedFiles
rejects the whole batch (returns the error) instead of omitting `b`, as the
run with the non-failing oracle `exHistNoFail` shows it otherwise would. -/
theorem c1_counterexample :
    getRelatedFiles exHistFail "t" "b\nc" 5 = .error () ∧
    getRelatedFiles exHistNoFail "t" "b\nc" 5 =
      .ok [{ file := "c", coChangeCount := 1, lastModifiedTogether := "2024-01-01" }] :=
  ⟨rfl, rfl⟩
/-- C1 amended: the partial-failure tolerance holds for getBranches — a
branch (with no '/' in its name) whose last-commit lookup fails is kept as
an entry with its commit metadata absent — but not for getRelatedFiles: a
candidate whose history query fails rejects the whole Promise.all batch, so
the call returns the failure instead of omitting the candidate. -/
theorem c1_partial_failure_amended :
    (∀ (lastCommitOf : String → Except Unit (List GitCommit))
       (bs : List BranchInfo) (b : BranchInfo),
       b ∈ bs → jsIncludesChar b.name '/' = false →
       lastCommitOf b.name = .error () →
       ({ name := b.name, current := b.current, lastCommit := none } : BranchEntry) ∈
         getBranches lastCommitOf bs) ∧
    (∀ (histOf : String → Except Unit (List GitCommit))
       (filePath filesRaw : String) (limit : Nat) (cand : String)
       (tcs : List GitCommit),
       histOf filePath = .ok tcs → tcs ≠ [] →
       cand ∈ relatedCandidates filesRaw filePath →
       histOf cand = .error () →
       getRelatedFiles histOf filePath filesRaw limit = .error ()) := by
  constructor
  · intro lco bs b hmem hslash herr
    unfold getBranches
    rw [List.mem_insertionSort, List.mem_map]
    refine ⟨b, List.mem_filter.mpr ⟨hmem, by simp [hslash]⟩, ?_⟩
    unfold branchEntryOf
    rw [herr]
  · intro histOf filePath filesRaw limit cand tcs ht htne hcand herr
    unfold getRelatedFiles
    rw [ht]
    have hne : (tcs.map (fun c => c.hash)).isEmpty = false := by
      cases tcs with
      | nil => exact absurd rfl htne
      | cons c cs => rfl
    simp only [hne, Bool.false_eq_true, if_false]
    rw [exceptMapM_error_of_mem hcand (by unfold relatedQuery; rw [herr])]

/-- Witness for C1: branch `dev` survives its failing lookup with absent
metadata, while the failing candidate `b` makes getRelatedFiles fail. -/
theorem c1_partial_failure_amended_witness :
    ({ name := "dev", current := false, lastCommit := none } : BranchEntry) ∈
      getBranches exBranchOracle [⟨"main", true⟩, ⟨"dev", false⟩] ∧
    getRelatedFiles exHistFail "t" "b" 3 = .error () :=
  ⟨c1_partial_failure_amended.1 exBranchOracle [⟨"main", true⟩, ⟨"dev", false⟩]
      ⟨"dev", false⟩ (by decide) rfl rfl,
   c1_partial_failure_amended.2 exHistFail "t" "b" 3 "b" [exCommitT] rfl
      (by decide) (by decide) rfl⟩

/-- C5 counterexample: on the stream consisting of the single content line
`"\tx"` (a content line before any header), the parse emits a record with
lineNumber 0, so the lineNumber values are [0], not the contiguous range
1..1 the claim asserts for every input stream. -/
theorem c5_counterexample :
    getFileBlame (fun _ => "T") "\tx" =
      .ok [{ hash := "", line := "x", author := "", date := "", lineNumber := 0 }] ∧
    ([0] : List Nat) ≠ List.range' 1 1 :=
  ⟨rfl, by decide⟩

/-- C5 amended: whenever the blame parse succeeds (an unparsable
author-time integer makes it throw instead), it emits exactly one record
per content-marker line, and re-parsing identical input is deterministic
since the parse is a pure function of the stream; the lineNumber values
form the contiguous range 1..N when the stream is well-formed — every
content line preceded by exactly one fresh header line, as in genuine
line-porcelain output — while on malformed streams the emitted lineNumber
is just the running header count. -/
theorem c5_blame_invariants (epochIso : Int → String) (blameOut : String)
    (res : List BlameLine)
    (h : getFileBlame epochIso blameOut = .ok res) :
    res.length = ((jsSplitChar blameOut '\n').filter isContentLine).length ∧
    (blameWF false (jsSplitChar blameOut '\n') = true →
      res.map (fun r => r.lineNumber) =
        List.range' 1 (((jsSplitChar blameOut '\n').filter isContentLine).length)) := by
  unfold getFileBlame at h
  constructor
  · exact blameGo_length epochIso _ _ _ _ _ _ h
  · intro hwf
    have := blameGo_lineNumbers epochIso _ false _ _ _ _ _ hwf h
    simpa using this

/-- Witness for C5 on a well-formed one-line blame stream. -/
theorem c5_blame_invariants_witness :
    getFileBlame (fun _ => "T") exBlameOut = .ok exBlameRes ∧
    blameWF false (jsSplitChar exBlameOut '\n') = true ∧
    exBlameRes.length = ((jsSplitChar exBlameOut '\n').filter isContentLine).length ∧
    exBlameRes.map (fun r => r.lineNumber) =
      List.range' 1 (((jsSplitChar exBlameOut '\n').filter isContentLine).length) :=
  ⟨rfl, rfl,
   (c5_blame_invariants (fun _ => "T") exBlameOut exBlameRes rfl).1,
   (c5_blame_invariants (fun _ => "T") exBlameOut exBlameRes rfl).2 rfl⟩
/-- C6: in every getCodeOwnership result, each entry's percentage equals
round(linesChanged / totalLinesChanged × 100) when the total is positive
and 0 when the total is 0; consequently, when the total is positive the
percentages sum to 100 within ±1 per entry, and all are 0 when the total
is 0. -/
theorem c6_ownership_percentages (s : String) :
    (∀ e ∈ getCodeOwnership s,
      e.percentage = if ownershipTotal s = 0 then 0
        else jsRound (e.linesChanged * 100) (ownershipTotal s)) ∧
    (ownershipTotal s = 0 → ∀ e ∈ getCodeOwnership s, e.percentage = 0) ∧
    (0 < ownershipTotal s →
      100 ≤ ((getCodeOwnership s).map (fun e => e.percentage)).sum +
        (getCodeOwnership s).length ∧
      ((getCodeOwnership s).map (fun e => e.percentage)).sum ≤
        100 + (getCodeOwnership s).length) := by
  have hform : ∀ e ∈ getCodeOwnership s,
      e.percentage = if ownershipTotal s = 0 then 0
        else jsRound (e.linesChanged * 100) (ownershipTotal s) := by
    intro e he
    have he' : e ∈ (ownershipMapOf s).map (fun a =>
        ({ author := a.1, email := a.2.1, linesChanged := a.2.2,
           percentage := if ownershipTotal s = 0 then 0
             else jsRound (a.2.2 * 100) (ownershipTotal s) } : OwnershipEntry)) :=
      (List.mem_insertionSort ownDesc).mp he
    obtain ⟨a, _, rfl⟩ := List.mem_map.mp he'
    rfl
  refine ⟨hform, fun h0 e he => by rw [hform e he, if_pos h0], ?_⟩
  intro hpos
  have hperm : (getCodeOwnership s).Perm
      ((ownershipMapOf s).map (fun a =>
        ({ author := a.1, email := a.2.1, linesChanged := a.2.2,
           percentage := if ownershipTotal s = 0 then 0
             else jsRound (a.2.2 * 100) (ownershipTotal s) } : OwnershipEntry))) :=
    List.perm_insertionSort ownDesc _
  have hsum : ((getCodeOwnership s).map (fun e => e.percentage)).sum =
      (((ownershipMapOf s).map (fun a => a.2.2)).map
        (fun l => jsRound (l * 100) (ownershipTotal s))).sum := by
    rw [(hperm.map (fun e => e.percentage)).sum_eq]
    simp only [List.map_map]
    congr 1
    apply List.map_congr_left
    intro a _
    simp only [Function.comp]
    rw [if_neg (Nat.pos_iff_ne_zero.mp hpos)]
  have hlen : (getCodeOwnership s).length =
      ((ownershipMapOf s).map (fun a => a.2.2)).length := by
    rw [hperm.length_eq]
    simp
  have htot : ((ownershipMapOf s).map (fun a => a.2.2)).sum = ownershipTotal s := rfl
  have hb := roundSum_bounds ((ownershipMapOf s).map (fun a => a.2.2)) (htot ▸ hpos)
  rw [htot] at hb
  rw [hsum, hlen]
  exact hb

/-- Witness for C6 on a two-author log with five changed lines. -/
theorem c6_ownership_percentages_witness :
    0 < ownershipTotal exOwnershipOut ∧
    100 ≤ ((getCodeOwnership exOwnershipOut).map (fun e => e.percentage)).sum +
      (getCodeOwnership exOwnershipOut).length ∧
    ((getCodeOwnership exOwnershipOut).map (fun e => e.percentage)).sum ≤
      100 + (getCodeOwnership exOwnershipOut).length :=
  ⟨by decide, ((c6_ownership_percentages exOwnershipOut).2.2 (by decide)).1,
    ((c6_ownership_percentages exOwnershipOut).2.2 (by decide)).2⟩
/-- C7: whenever getRelatedFiles succeeds with target history `tcs`, it
considered at most 100 candidate files, the output is truncated to the
caller limit and sorted descending by shared-commit count, every entry
stems from a considered candidate with nonempty commit-hash intersection
(empty-intersection candidates are dropped), its count is the intersection
size, and its lastModifiedTogether is the date of the earliest-indexed
entry of the target's own newest-first history whose hash lies in the
intersection. -/
theorem c7_related_files_shape (histOf : String → Except Unit (List GitCommit))
    (filePath filesRaw : String) (limit : Nat)
    (tcs : List GitCommit) (out : List RelatedFile)
    (ht : histOf filePath = .ok tcs)
    (hout : getRelatedFiles histOf filePath filesRaw limit = .ok out) :
    (relatedCandidates filesRaw filePath).length ≤ 100 ∧
    out.length ≤ limit ∧
    List.Pairwise relDesc out ∧
    (∀ e ∈ out, 1 ≤ e.coChangeCount ∧
      ∃ cand ∈ relatedCandidates filesRaw filePath, ∃ ocs,
        histOf cand = .ok ocs ∧
        e.file = cand ∧
        e.coChangeCount =
          (sharedCommits (tcs.map (fun c => c.hash))
            (ocs.map (fun c => c.hash))).length ∧
        e.lastModifiedTogether =
          ((tcs.find? (fun c =>
              (sharedCommits (tcs.map (fun g => g.hash))
                (ocs.map (fun g => g.hash))).contains c.hash)).map
            (fun c => c.date)).getD "") := by
  have hcand100 : (relatedCandidates filesRaw filePath).length ≤ 100 := by
    unfold relatedCandidates
    simp only [List.length_take]
    omega
  unfold getRelatedFiles at hout
  simp only [ht] at hout
  cases hemp : (tcs.map (fun c => c.hash)).isEmpty with
  | true =>
    rw [hemp] at hout
    simp only [if_true] at hout
    cases hout
    exact ⟨hcand100, Nat.zero_le _, List.Pairwise.nil,
      fun e he => absurd he (List.not_mem_nil e)⟩
  | false =>
    rw [hemp] at hout
    simp only [Bool.false_eq_true, if_false] at hout
    cases hmapm : exceptMapM (relatedQuery histOf tcs (tcs.map (fun c => c.hash)))
        (relatedCandidates filesRaw filePath) with
    | error err => rw [hmapm] at hout; cases hout
    | ok results =>
      rw [hmapm] at hout
      cases hout
      refine ⟨hcand100, ?_, ?_, ?_⟩
      · simp only [List.length_take]
        omega
      · exact List.Pairwise.sublist (List.take_sublist _ _)
          (List.sorted_insertionSort relDesc _)
      · intro e he
        have he1 : e ∈ List.insertionSort relDesc (results.filterMap id) :=
          List.mem_of_mem_take he
        have he2 : e ∈ results.filterMap id :=
          (List.mem_insertionSort relDesc).mp he1
        obtain ⟨oe, hoe, hid⟩ := List.mem_filterMap.mp he2
        obtain ⟨cand, hcand, hf⟩ := mem_of_exceptMapM_ok hmapm oe hoe
        unfold relatedQuery at hf
        cases hoc : histOf cand with
        | error err => rw [hoc] at hf; cases hf
        | ok ocs =>
          rw [hoc] at hf
          cases hf
          simp only [id_eq] at hid
          simp only [relatedEntry] at hid
          cases hcem : (sharedCommits (tcs.map (fun c => c.hash))
              (ocs.map (fun c => c.hash))).isEmpty with
          | true => rw [hcem] at hid; simp at hid
          | false =>
            rw [hcem] at hid
            simp only [Bool.false_eq_true, if_false, Option.some.injEq] at hid
            subst hid
            refine ⟨?_, cand, hcand, ocs, hoc, rfl, rfl, rfl⟩
            cases hl : sharedCommits (tcs.map (fun c => c.hash))
                (ocs.map (fun c => c.hash)) with
            | nil => rw [hl] at hcem; cases hcem
            | cons x xs => simp [hl]
/-- Witness for C7: the successful run over candidates `b` (no shared
commits) and `c` (one shared commit) yields the singleton sorted result. -/
theorem c7_related_files_shape_witness :
    getRelatedFiles exHistNoFail "t" "b\nc" 5 =
      .ok [{ file := "c", coChangeCount := 1, lastModifiedTogether := "2024-01-01" }] ∧
    ([{ file := "c", coChangeCount := 1, lastModifiedTogether := "2024-01-01" }] :
      List RelatedFile).length ≤ 5 ∧
    List.Pairwise relDesc
      ([{ file := "c", coChangeCount := 1, lastModifiedTogether := "2024-01-01" }] :
        List RelatedFile) :=
  ⟨rfl,
   (c7_related_files_shape exHistNoFail "t" "b\nc" 5 [exCommitT]
      [{ file := "c", coChangeCount := 1, lastModifiedTogether := "2024-01-01" }]
      rfl rfl).2.1,
   (c7_related_files_shape exHistNoFail "t" "b\nc" 5 [exCommitT]
      [{ file := "c", coChangeCount := 1, lastModifiedTogether := "2024-01-01" }]
      rfl rfl).2.2.1⟩
